import Mathlib

/-!
# slacko: a Slack bot relaying Go snippets to the Go Playground

A shallow embedding of the message pipeline of `main.go` and of the helpers in
`utils/message_context.go` and `utils/go_playground.go`.

* Go strings are modelled by `String`; every function works on the list of
  code points (`String.data`), which is how `strings.Trim`, `strings.TrimSpace`
  and the `regexp` package see a valid UTF-8 string.
* The Slack Web API, the Go Playground, `goimports`, `json.Marshal` and the
  entity table of `html.UnescapeString` are external; they are fields of `Deps`.
* One pass through the body of each `for` loop is one function call; the Slack
  calls the pass makes are recorded, in order, in a list of `ApiCall`.
* Debug logging (`Printf`) has no effect on the pipeline and is left out.
-/

set_option autoImplicit false

namespace Slacko

/-! ## The Go library functions used by the sources -/

/-- The backtick character, U+0060. -/
abbrev backtick : Char := Char.ofNat 96

/-- Go `unicode.IsSpace`: the code points with the Unicode White_Space property. -/
def isSpace (c : Char) : Bool :=
  let n := c.toNat
  (9 ≤ n && n ≤ 13) || n == 32 || n == 0x85 || n == 0xA0 || n == 0x1680 ||
  (0x2000 ≤ n && n ≤ 0x200A) || n == 0x2028 || n == 0x2029 || n == 0x202F ||
  n == 0x205F || n == 0x3000

/-- Remove the leading and the trailing code points satisfying `p`
(`strings.TrimFunc`). -/
def trimFunc (p : Char → Bool) (s : List Char) : List Char :=
  (s.dropWhile p).rdropWhile p

/-- Go `strings.Trim(s, cutset)`: all leading and trailing code points contained
in `cutset` are removed. The second argument is a set of code points, not a
prefix. -/
def Trim (s cutset : String) : String :=
  ⟨trimFunc (fun c => cutset.data.contains c) s.data⟩

/-- Go `strings.TrimSpace`. -/
def TrimSpace (s : String) : String :=
  ⟨trimFunc isSpace s.data⟩

/-- Go `strings.HasPrefix`. -/
def HasPrefix (s pfx : String) : Bool :=
  pfx.data.isPrefixOf s.data

/-- Go `strings.HasSuffix`. -/
def HasSuffix (s sfx : String) : Bool :=
  sfx.data.isSuffixOf s.data

/-- Go `strings.TrimPrefix`: `s` without the leading `pfx`, or `s` itself when it
does not start with `pfx`. The sources do not call it; it states what "removing
the leading prefix" means. -/
def TrimPrefix (s pfx : String) : String :=
  if pfx.data.isPrefixOf s.data then ⟨s.data.drop pfx.data.length⟩ else s

/-- Go `html.UnescapeString`: a string without an ampersand is returned as it
is; otherwise the entities are decoded, which depends on the entity tables of
the `html` package, here the argument `unescapeEntities`. -/
def UnescapeString (unescapeEntities : String → String) (s : String) : String :=
  if s.data.contains '&' then unescapeEntities s else s

/-! ## utils/message_context.go -/

/-- The fields of `slack.Msg` read by the sources. -/
structure Msg where
  SubType : String
  Text : String
  Timestamp : String
  Channel : String
  User : String
deriving DecidableEq, Repr

/-- The type `slack.MessageEvent`: a message and a pointer to the nested message
of an edit notification (`none` is the nil pointer). -/
structure MessageEvent where
  Msg : Slacko.Msg
  SubMessage : Option Slacko.Msg
deriving DecidableEq, Repr

/-- The type `config.SlackoConfig`. -/
structure SlackoConfig where
  GoPlaygroundHost : String
  BotName : String
  DebugOn : Bool
  CacheSize : Int
deriving DecidableEq, Repr

def msgSubTypeMessageChanged : String := "message_changed"

/-- The type `utils.MessageContext`. The embedded `*slack.Client` is the handle
of the Slack API, represented by `Deps` below. -/
structure MessageContext where
  MsgChannel : String
  MsgTimestamp : String
  MsgUser : String
  MsgText : String
  MsgEdited : Bool
  ReplyToID : String
  Host : String
  BotName : String
  DebugOn : Bool
deriving DecidableEq, Repr

/-- Go `NewMessageContext`. The result is `none` when the function dereferences
a nil `SubMessage`. `ReplyToID` is not set by the composite literal, so it is
the empty string. -/
def NewMessageContext (event : MessageEvent) (config : SlackoConfig) :
    Option MessageContext :=
  let edited := decide (event.Msg.SubType = msgSubTypeMessageChanged)
  let fields : Option (String × String) :=
    if edited then
      match event.SubMessage with
      | some sub => some (sub.Text, sub.Timestamp)
      | none => none
    else some (event.Msg.Text, event.Msg.Timestamp)
  match fields with
  | none => none
  | some (msgText, msgTimestamp) =>
    some
      { MsgChannel := event.Msg.Channel
        MsgTimestamp := msgTimestamp
        MsgUser := event.Msg.User
        MsgText := msgText
        MsgEdited := edited
        ReplyToID := ""
        Host := config.GoPlaygroundHost
        BotName := config.BotName
        DebugOn := config.DebugOn }

/-- The part `[^/]*>:` of the pattern, tried at the head of the list once the
first code point of the group is consumed. The quantifier is greedy: consuming
one more code point is tried first, and the literal `>:` is tried at the
current position only when that fails. The result is the rest of the group. -/
def matchGroupRest : List Char → Option (List Char)
  | [] => none
  | c :: cs =>
    match (if c = '/' then none else matchGroupRest cs) with
    | some g => some (c :: g)
    | none => if [ '>', ':' ].isPrefixOf (c :: cs) then some [] else none

/-- The submatch of group 1 of `^<@([^/]+)>:` on the text, `none` when the
pattern does not match (`FindStringSubmatch` returns nil). -/
def findSubmatch : List Char → Option (List Char)
  | '<' :: '@' :: c :: cs =>
    if c = '/' then none else (matchGroupRest cs).map (fun g => c :: g)
  | _ => none

/-- Go `(*MessageContext).ExtractReplyToID`. -/
def ExtractReplyToID (mc : MessageContext) : String :=
  match findSubmatch mc.MsgText.data with
  | none => ""
  | some g => ⟨g⟩

/-- Go `(*MessageContext).ExtractCode`. -/
def ExtractCode (unescapeEntities : String → String) (mc : MessageContext)
    (botID : String) : String :=
  let pfx := "<@" ++ botID ++ ">:"
  let temp := TrimSpace (Trim mc.MsgText pfx)
  if !HasPrefix temp "`" || !HasSuffix temp "`" then ""
  else
    let temp := Trim temp "`"
    UnescapeString unescapeEntities temp

/-! ## utils/go_playground.go -/

/-- The type `utils.GoPlaygroundResult`. -/
structure GoPlaygroundResult where
  CompileErrors : String
  Output : String
deriving DecidableEq, Repr

/-- Go `(*GoPlaygroundResult).GetOutput`. -/
def GoPlaygroundResult.GetOutput (r : GoPlaygroundResult) : String :=
  "```" ++ r.Output ++ "```"

/-- The type `utils.GoPlaygroundClient`. -/
structure GoPlaygroundClient where
  Host : String
  DebugOn : Bool
deriving DecidableEq, Repr

/-- The fields of `slack.User` read by the sources. -/
structure UserInfo where
  Name : String
  IsBot : Bool
deriving DecidableEq, Repr

/-- The fields of `slack.PostMessageParameters` set by the sources. -/
structure PostMessageParameters where
  Username : String
  AsUser : Bool
deriving DecidableEq, Repr

/-- The external services. A Go `error` is represented by its message.

* `marshal` is `json.Marshal` on a context;
* `getUserInfo`, `postMessage` (returning channel and timestamp) and
  `updateMessage` are the methods of `slack.Client`;
* `goimports` writes the snippet to a temporary file and runs `goimports` on it;
* `postForm` is `http.PostForm` followed by reading the response body;
* `unmarshalResult` is `json.Unmarshal` into a `GoPlaygroundResult`;
* `unescapeEntities` is the entity decoding of `html.UnescapeString`. -/
structure Deps where
  marshal : MessageContext → Except String String
  getUserInfo : String → Except String UserInfo
  postMessage : String → String → PostMessageParameters → Except String (String × String)
  updateMessage : String → String → String → Except String (String × String × String)
  goimports : String → Except String String
  postForm : String → String → Except String String
  unmarshalResult : String → Except String GoPlaygroundResult
  unescapeEntities : String → String

/-- The constant `template` with the snippet in place of `%s`. -/
def snippetOf (input : String) : String :=
  "package main\n\nfunc main() \x7b\n\t" ++ input ++ "\n\x7d"

/-- Go `(*GoPlaygroundClient).Format`. -/
def Format (d : Deps) (input : String) : Except String String :=
  d.goimports (snippetOf input)

/-- Go `(*GoPlaygroundClient).Compile`. -/
def Compile (d : Deps) (c : GoPlaygroundClient) (code : String) :
    Except String GoPlaygroundResult :=
  match Format d code with
  | .error err => .error err
  | .ok formatted =>
    match d.postForm c.Host formatted with
    | .error err => .error err
    | .ok body => d.unmarshalResult body

/-- Go `(*MessageContext).GetInfo`. -/
def GetInfo (d : Deps) (mc : MessageContext) : Except String String :=
  d.marshal mc

/-- Go `(*MessageContext).IsBot`. -/
def IsBot (d : Deps) (mc : MessageContext) : Except String Bool :=
  match d.getUserInfo mc.MsgUser with
  | .error err => .error err
  | .ok userInfo => .ok userInfo.IsBot

/-! ## The LRU cache of github.com/hashicorp/golang-lru -/

/-- The cache: its capacity and its entries, the most recently used first. -/
structure Cache where
  size : Nat
  entries : List (String × String)
deriving DecidableEq, Repr

/-- Go `lru.New`: a non-positive size is an error. -/
def Cache.New (size : Int) : Except String Cache :=
  if size ≤ 0 then .error "Must provide a positive size"
  else .ok { size := size.toNat, entries := [] }

/-- Go `(*Cache).Contains`: membership, without touching the recency order. -/
def Cache.Contains (c : Cache) (key : String) : Bool :=
  c.entries.any (fun e => e.1 == key)

/-- Go `(*Cache).Get`: the value and the cache with the entry moved to the
front. -/
def Cache.Get (c : Cache) (key : String) : Option String × Cache :=
  match c.entries.find? (fun e => e.1 == key) with
  | some e => (some e.2, { c with entries := e :: c.entries.filter (fun x => x.1 != key) })
  | none => (none, c)

/-- Go `(*Cache).Add`: an existing key is updated and moved to the front; a new
one is pushed to the front and, when the capacity is exceeded, the oldest entry
is removed. -/
def Cache.Add (c : Cache) (key value : String) : Cache :=
  if c.entries.any (fun e => e.1 == key) then
    { c with entries := (key, value) :: c.entries.filter (fun x => x.1 != key) }
  else
    let es := (key, value) :: c.entries
    if es.length > c.size then { c with entries := es.dropLast } else { c with entries := es }

/-! ## main.go -/

/-- A call to the Slack Web API. -/
inductive ApiCall where
  | getUserInfo (user : String)
  | postMessage (channel text : String) (params : PostMessageParameters)
  | updateMessage (channel timestamp text : String)
deriving DecidableEq, Repr

def ApiCall.isPost : ApiCall → Bool
  | .postMessage _ _ _ => true
  | _ => false

def ApiCall.isUpdate : ApiCall → Bool
  | .updateMessage _ _ _ => true
  | _ => false

/-- The outcome of one pass of `filterRequests`: what is sent on `filtered`, if
anything, and the Slack calls made. -/
structure FilterStep where
  forwarded : Option MessageContext
  calls : List ApiCall
deriving DecidableEq, Repr

/-- The second half of the loop body of `filterRequests`, from
`replyToID := mc.ExtractReplyToID()` on; `calls` are the calls made so far. -/
def filterAddressed (d : Deps) (mc : MessageContext) (calls : List ApiCall) : FilterStep :=
  let replyToID := ExtractReplyToID mc
  if replyToID = "" then { forwarded := none, calls := calls }
  else
    let calls := calls ++ [ApiCall.getUserInfo replyToID]
    match d.getUserInfo replyToID with
    | .error _ => { forwarded := none, calls := calls }
    | .ok replyToInfo =>
      if replyToInfo.Name ≠ mc.BotName then { forwarded := none, calls := calls }
      else { forwarded := some { mc with ReplyToID := replyToID }, calls := calls }

/-- One pass through the loop body of `filterRequests` for a received context. -/
def filterRequests (d : Deps) (mc : MessageContext) : FilterStep :=
  match GetInfo d mc with
  | .error _ => { forwarded := none, calls := [] }
  | .ok _ =>
    if !mc.MsgEdited then
      match IsBot d mc with
      | .error _ => { forwarded := none, calls := [ApiCall.getUserInfo mc.MsgUser] }
      | .ok isBot =>
        if isBot then { forwarded := none, calls := [ApiCall.getUserInfo mc.MsgUser] }
        else filterAddressed d mc [ApiCall.getUserInfo mc.MsgUser]
    else filterAddressed d mc []

/-- The outcome of one pass of `buildResponses`: the Slack calls made, the cache
after the reads of the pass, and the `go cache.Add(key, value)` tasks it
started. -/
structure BuildStep where
  calls : List ApiCall
  cache : Cache
  spawned : List (String × String)
deriving DecidableEq, Repr

/-- The cache once the started `cache.Add` tasks have run. -/
def BuildStep.settled (r : BuildStep) : Cache :=
  r.spawned.foldl (fun c kv => c.Add kv.1 kv.2) r.cache

/-- The block `PostMessage(...)`, `continue` on error, `go cache.Add(mc.MsgTimestamp, ts)`
that `buildResponses` runs for each kind of reply. -/
def postReply (d : Deps) (cache : Cache) (mc : MessageContext) (text : String)
    (params : PostMessageParameters) : BuildStep :=
  match d.postMessage mc.MsgChannel text params with
  | .error _ => { calls := [ApiCall.postMessage mc.MsgChannel text params], cache := cache,
                  spawned := [] }
  | .ok (_, ts) => { calls := [ApiCall.postMessage mc.MsgChannel text params], cache := cache,
                     spawned := [(mc.MsgTimestamp, ts)] }

/-- The text of the reply to a message without code. -/
def noCodeReply : String :=
  "Error: " ++ ("No code received. Accepted formats are\n" ++ "`single-line code`\n" ++
    "```multi-line code```") ++ "\n"

/-- One pass through the loop body of `buildResponses` for a received context,
with the global `cache`. -/
def buildResponses (d : Deps) (gpClient : GoPlaygroundClient) (cache : Cache)
    (mc : MessageContext) : BuildStep :=
  match GetInfo d mc with
  | .error _ => { calls := [], cache := cache, spawned := [] }
  | .ok _ =>
    let params : PostMessageParameters := { Username := mc.BotName, AsUser := true }
    let code := ExtractCode d.unescapeEntities mc mc.ReplyToID
    if code = "" then postReply d cache mc noCodeReply params
    else
      match Compile d gpClient code with
      | .error err => postReply d cache mc ("Error compiling: " ++ err ++ "\n") params
      | .ok result =>
        if result.CompileErrors ≠ "" then
          postReply d cache mc ("Compile errors from Go Playground: " ++ result.CompileErrors)
            params
        else
          let resultOutput := result.GetOutput
          if mc.MsgEdited then
            if cache.Contains mc.MsgTimestamp then
              match cache.Get mc.MsgTimestamp with
              | (none, cache1) => { calls := [], cache := cache1, spawned := [] }
              | (some cached, cache1) =>
                { calls := [ApiCall.updateMessage mc.MsgChannel cached resultOutput],
                  cache := cache1, spawned := [] }
            else { calls := [], cache := cache, spawned := [] }
          else postReply d cache mc resultOutput params

/-! ## Sample inputs -/

/-- Services that all succeed: the user `UBOT` is the bot `slacko`, every other
user is a person named `alice`; posting returns the timestamp `200.0`; the
playground reports compile errors for a snippet containing a question mark and
the output `2` otherwise. -/
def demoDeps : Deps :=
  { marshal := fun _ => .ok "info"
    getUserInfo := fun u =>
      if u = "UBOT" then .ok { Name := "slacko", IsBot := true }
      else .ok { Name := "alice", IsBot := false }
    postMessage := fun ch _ _ => .ok (ch, "200.0")
    updateMessage := fun ch ts text => .ok (ch, ts, text)
    goimports := fun s => .ok s
    postForm := fun _ body => .ok body
    unmarshalResult := fun body =>
      if body.data.contains '?' then .ok { CompileErrors := "undefined: oops", Output := "" }
      else .ok { CompileErrors := "", Output := "2" }
    unescapeEntities := fun s => s }

def demoClient : GoPlaygroundClient := { Host := "http://localhost:8080/compile", DebugOn := false }

/-- An accepted context in channel `C1` with original timestamp `100.0`. -/
def demoCtx (text : String) (edited : Bool) : MessageContext :=
  { MsgChannel := "C1", MsgTimestamp := "100.0", MsgUser := "UALICE", MsgText := text,
    MsgEdited := edited, ReplyToID := "UBOT", Host := "http://localhost:8080/compile",
    BotName := "slacko", DebugOn := false }

/-- A context as `NewMessageContext` builds it, before the filter stage. -/
def rawCtx (text : String) (edited : Bool) : MessageContext :=
  { MsgChannel := "C1", MsgTimestamp := "100.0", MsgUser := "UALICE", MsgText := text,
    MsgEdited := edited, ReplyToID := "", Host := "http://localhost:8080/compile",
    BotName := "slacko", DebugOn := false }

def demoCache : Cache := { size := 2, entries := [("100.0", "150.0")] }

def emptyCache : Cache := { size := 2, entries := [] }

/-! ## Request context construction -/

/-- For an event that carries its nested message whenever it is an edit
notification, `NewMessageContext` returns a context whose `MsgEdited` is true
exactly when the sub-type is `message_changed`; when it is true the timestamp
and the text are those of the nested message, otherwise those of the event; the
channel and the user are those of the event; `ReplyToID` is empty. -/
theorem NewMessageContext_fields (event : MessageEvent) (config : SlackoConfig)
    (hsub : event.Msg.SubType = "message_changed" → event.SubMessage.isSome = true) :
    ∃ mc, NewMessageContext event config = some mc ∧
      (mc.MsgEdited = true ↔ event.Msg.SubType = "message_changed") ∧
      (mc.MsgEdited = true → ∃ sub, event.SubMessage = some sub ∧
        mc.MsgTimestamp = sub.Timestamp ∧ mc.MsgText = sub.Text) ∧
      (mc.MsgEdited = false →
        mc.MsgTimestamp = event.Msg.Timestamp ∧ mc.MsgText = event.Msg.Text) ∧
      mc.MsgChannel = event.Msg.Channel ∧ mc.MsgUser = event.Msg.User ∧
      mc.ReplyToID = "" := by
  by_cases hed : event.Msg.SubType = "message_changed"
  · obtain ⟨sub, hs⟩ := Option.isSome_iff_exists.mp (hsub hed)
    simp only [NewMessageContext, msgSubTypeMessageChanged, hed, hs, decide_True, if_true]
    exact ⟨_, rfl, by simp⟩
  · simp only [NewMessageContext, msgSubTypeMessageChanged, hed, decide_False]
    exact ⟨_, rfl, by simp [hed]⟩

/-- An edit notification without its nested message: the nil pointer is
dereferenced and no context is returned. -/
theorem NewMessageContext_nil_sub (event : MessageEvent) (config : SlackoConfig)
    (hed : event.Msg.SubType = "message_changed") (hsub : event.SubMessage = none) :
    NewMessageContext event config = none := by
  simp [NewMessageContext, msgSubTypeMessageChanged, hed, hsub]

/-- C10 at an event of sub-type `message_changed` without a nested message, as
the JSON decoder builds it when the `message` field is absent: the sub-type makes
`edited` true, the function reads `event.SubMessage.Text` through the nil
pointer and returns no context, where a context with `MsgEdited` true is due. -/
theorem NewMessageContext_edit_without_sub :
    decide (("message_changed" : String) = msgSubTypeMessageChanged) = true ∧
    NewMessageContext
      { Msg := { SubType := "message_changed", Text := "", Timestamp := "101.0",
                 Channel := "C1", User := "" },
        SubMessage := none }
      { GoPlaygroundHost := "h", BotName := "slacko", DebugOn := false, CacheSize := 2 }
      = none := by
  decide

/-- An edit notification with its nested message and a plain message. -/
theorem NewMessageContext_fields_examples :
    (∃ mc, NewMessageContext
        { Msg := { SubType := "message_changed", Text := "", Timestamp := "101.0",
                   Channel := "C1", User := "" },
          SubMessage := some { SubType := "", Text := "<@UBOT>: `2+2`", Timestamp := "100.0",
                               Channel := "", User := "UALICE" } }
        { GoPlaygroundHost := "h", BotName := "slacko", DebugOn := false, CacheSize := 2 }
        = some mc ∧ mc.MsgEdited = true ∧ mc.MsgTimestamp = "100.0" ∧
          mc.MsgText = "<@UBOT>: `2+2`" ∧ mc.MsgChannel = "C1") ∧
    (∃ mc, NewMessageContext
        { Msg := { SubType := "", Text := "<@UBOT>: `1+1`", Timestamp := "100.0",
                   Channel := "C1", User := "UALICE" },
          SubMessage := none }
        { GoPlaygroundHost := "h", BotName := "slacko", DebugOn := false, CacheSize := 2 }
        = some mc ∧ mc.MsgEdited = false ∧ mc.MsgTimestamp = "100.0" ∧
          mc.MsgText = "<@UBOT>: `1+1`" ∧ mc.MsgUser = "UALICE") := by
  constructor
  · obtain ⟨mc, h, hed, hsubm, -, hch, -, -⟩ :=
      NewMessageContext_fields
        { Msg := { SubType := "message_changed", Text := "", Timestamp := "101.0",
                   Channel := "C1", User := "" },
          SubMessage := some { SubType := "", Text := "<@UBOT>: `2+2`", Timestamp := "100.0",
                               Channel := "", User := "UALICE" } }
        { GoPlaygroundHost := "h", BotName := "slacko", DebugOn := false, CacheSize := 2 }
        (fun _ => rfl)
    have hE : mc.MsgEdited = true := hed.mpr rfl
    obtain ⟨sub, hs, hts, htx⟩ := hsubm hE
    cases hs
    exact ⟨mc, h, hE, hts, htx, hch⟩
  · obtain ⟨mc, h, hed, -, hplain, -, hu, -⟩ :=
      NewMessageContext_fields
        { Msg := { SubType := "", Text := "<@UBOT>: `1+1`", Timestamp := "100.0",
                   Channel := "C1", User := "UALICE" },
          SubMessage := none }
        { GoPlaygroundHost := "h", BotName := "slacko", DebugOn := false, CacheSize := 2 }
        (fun h => absurd h (by decide))
    have hE : mc.MsgEdited = false := by
      cases hb : mc.MsgEdited
      · rfl
      · exact absurd (hed.mp hb) (by decide)
    exact ⟨mc, h, hE, (hplain hE).1, (hplain hE).2, hu⟩

/-! ## The filter stage -/

/-- C5. One pass of `filterRequests` (the context being serialised for the debug
log without error) forwards the context if and only if (a) it is an edit or the
author lookup succeeds and reports a non-bot, (b) `ExtractReplyToID` is
non-empty and (c) the lookup of that id succeeds with the name `BotName`. What
is forwarded is the context with `ReplyToID` set to that id; otherwise, lookup
errors included, nothing is forwarded; and for a bot-authored message that is
not an edit the only lookup made is the one of the author. -/
theorem filterRequests_forwards_iff (d : Deps) (mc : MessageContext)
    (hinfo : ∃ s, GetInfo d mc = .ok s) :
    ((filterRequests d mc).forwarded ≠ none ↔
      ((mc.MsgEdited = true ∨ ∃ u, d.getUserInfo mc.MsgUser = .ok u ∧ u.IsBot = false) ∧
        ExtractReplyToID mc ≠ "" ∧
        ∃ u, d.getUserInfo (ExtractReplyToID mc) = .ok u ∧ u.Name = mc.BotName)) ∧
    (∀ out, (filterRequests d mc).forwarded = some out →
      out = { mc with ReplyToID := ExtractReplyToID mc }) ∧
    (mc.MsgEdited = false → (∃ u, d.getUserInfo mc.MsgUser = .ok u ∧ u.IsBot = true) →
      (filterRequests d mc).forwarded = none ∧
      (filterRequests d mc).calls = [ApiCall.getUserInfo mc.MsgUser]) := by
  obtain ⟨s, hs⟩ := hinfo
  have haddr : ∀ calls,
      ((filterAddressed d mc calls).forwarded ≠ none ↔
        (ExtractReplyToID mc ≠ "" ∧
          ∃ u, d.getUserInfo (ExtractReplyToID mc) = .ok u ∧ u.Name = mc.BotName)) ∧
      (∀ out, (filterAddressed d mc calls).forwarded = some out →
        out = { mc with ReplyToID := ExtractReplyToID mc }) := by
    intro calls
    unfold filterAddressed
    by_cases hid : ExtractReplyToID mc = ""
    · simp [hid]
    · cases hu : d.getUserInfo (ExtractReplyToID mc) with
      | error e => simp [hid, hu]
      | ok info =>
        by_cases hn : info.Name = mc.BotName
        · simp only [hid, hu, hn]
          refine ⟨by simp; exact ⟨hid, hn⟩, ?_⟩
          intro out h
          simp only [if_false, ne_eq, not_true_eq_false, Option.some.injEq] at h
          exact h.symm
        · simp [hid, hu, hn]
  generalize ({ mc with ReplyToID := ExtractReplyToID mc } : MessageContext) = out0 at haddr ⊢
  unfold filterRequests
  rw [hs]
  by_cases hE : mc.MsgEdited = true
  · simp only [hE, Bool.not_true, Bool.false_eq_true, if_false, true_or, true_and]
    exact ⟨(haddr []).1, (haddr []).2, fun h => absurd h (by simp)⟩
  · simp only [hE, Bool.not_eq_true, Bool.not_false, if_true, false_or]
    unfold IsBot
    cases hu : d.getUserInfo mc.MsgUser with
    | error e => simp
    | ok info =>
      cases hb : info.IsBot with
      | true => simp [hb]
      | false =>
        simp only [hb, Bool.false_eq_true, if_false]
        refine ⟨?_, (haddr _).2, ?_⟩
        · rw [(haddr _).1]
          simp [hb]
        · simp [hb]

/-- The pass of C5 on a message a person sends to the bot: all three conditions
hold and the context is forwarded. -/
theorem filterRequests_forwards_iff_witness :
    (filterRequests demoDeps (rawCtx "<@UBOT>: 1+1" false)).forwarded ≠ none :=
  (filterRequests_forwards_iff demoDeps (rawCtx "<@UBOT>: 1+1" false) ⟨"info", rfl⟩).1.mpr
    ⟨Or.inr ⟨_, rfl, rfl⟩, by decide, ⟨_, rfl, rfl⟩⟩

/-! ## The edit-correlation cache -/

theorem Cache.get_of_contains (c : Cache) (key : String) (h : c.Contains key = true) :
    ∃ v, (c.Get key).1 = some v ∧ (key, v) ∈ c.entries := by
  unfold Cache.Contains at h
  obtain ⟨e, he, hk⟩ := List.any_eq_true.mp h
  cases hf : c.entries.find? (fun e => e.1 == key) with
  | none =>
    have := List.find?_eq_none.mp hf e he
    exact absurd hk this
  | some e1 =>
    refine ⟨e1.2, by simp [Cache.Get, hf], ?_⟩
    have hmem := List.mem_of_find?_eq_some hf
    have hkey : e1.1 = key := by simpa using List.find?_some hf
    rw [← hkey]
    exact hmem

theorem Cache.get_add (c : Cache) (key value : String) (h : 0 < c.size) :
    (c.Add key value).Contains key = true ∧ ((c.Add key value).Get key).1 = some value := by
  have hhead : ∀ (n : Nat) (l : List (String × String)),
      (Cache.mk n ((key, value) :: l)).Contains key = true ∧
      ((Cache.mk n ((key, value) :: l)).Get key).1 = some value := by
    intro n l
    simp [Cache.Contains, Cache.Get]
  unfold Cache.Add
  split
  · exact hhead _ _
  · simp only []
    split
    · rename_i hlen
      cases hl : c.entries with
      | nil =>
        rw [hl] at hlen
        simp at hlen
        omega
      | cons a l =>
        simp only [List.dropLast_cons₂]
        exact hhead _ _
    · exact hhead _ _

/-! ## The compile stage -/

/-- C6, as the code has it. For an accepted edit context whose snippet is
non-empty and compiles without compile errors, and whose original timestamp is
in the cache, one pass of `buildResponses` makes exactly one Slack call: the
update of the message with the cached reply timestamp to the formatted output;
it makes no post call and starts no cache insertion. -/
theorem buildResponses_edit_cached (d : Deps) (gpClient : GoPlaygroundClient) (cache : Cache)
    (mc : MessageContext) (r : GoPlaygroundResult)
    (hinfo : ∃ s, GetInfo d mc = .ok s)
    (hed : mc.MsgEdited = true)
    (hcode : ExtractCode d.unescapeEntities mc mc.ReplyToID ≠ "")
    (hcomp : Compile d gpClient (ExtractCode d.unescapeEntities mc mc.ReplyToID) = .ok r)
    (herr : r.CompileErrors = "")
    (hc : cache.Contains mc.MsgTimestamp = true) :
    ∃ cached, (cache.Get mc.MsgTimestamp).1 = some cached ∧
      (mc.MsgTimestamp, cached) ∈ cache.entries ∧
      (buildResponses d gpClient cache mc).calls =
        [ApiCall.updateMessage mc.MsgChannel cached r.GetOutput] ∧
      (buildResponses d gpClient cache mc).spawned = [] := by
  obtain ⟨s, hs⟩ := hinfo
  obtain ⟨cached, hget, hmem⟩ := Cache.get_of_contains cache mc.MsgTimestamp hc
  refine ⟨cached, hget, hmem, ?_⟩
  unfold buildResponses
  simp only [hs, hcode, if_false, hcomp, herr, ne_eq, not_true_eq_false, hed, if_true, hc]
  cases hg : cache.Get mc.MsgTimestamp with
  | mk v c1 =>
    rw [hg] at hget
    simp only at hget
    subst hget
    exact ⟨rfl, rfl⟩

/-- The pass of C6 on the edit of a message whose reply `150.0` is cached. -/
theorem buildResponses_edit_cached_witness :
    ∃ cached, (demoCache.Get "100.0").1 = some cached ∧
      (("100.0" : String), cached) ∈ demoCache.entries ∧
      (buildResponses demoDeps demoClient demoCache (demoCtx "<@UBOT>: `2+2`" true)).calls =
        [ApiCall.updateMessage "C1" cached "```2```"] ∧
      (buildResponses demoDeps demoClient demoCache (demoCtx "<@UBOT>: `2+2`" true)).spawned
        = [] :=
  buildResponses_edit_cached demoDeps demoClient demoCache (demoCtx "<@UBOT>: `2+2`" true)
    { CompileErrors := "", Output := "2" } ⟨"info", rfl⟩ rfl (by decide) (by rfl) rfl (by decide)

/-- C6 fails as stated: the edit of a message without a snippet, whose original
timestamp is in the cache, is answered by a post call and no update call. -/
theorem edit_cached_without_snippet_posts :
    (demoCtx "<@UBOT>: hi" true).MsgEdited = true ∧
    demoCache.Contains (demoCtx "<@UBOT>: hi" true).MsgTimestamp = true ∧
    (buildResponses demoDeps demoClient demoCache (demoCtx "<@UBOT>: hi" true)).calls =
      [ApiCall.postMessage "C1" noCodeReply { Username := "slacko", AsUser := true }] ∧
    (buildResponses demoDeps demoClient demoCache (demoCtx "<@UBOT>: hi" true)).calls.any
      ApiCall.isPost = true ∧
    (buildResponses demoDeps demoClient demoCache (demoCtx "<@UBOT>: hi" true)).calls.any
      ApiCall.isUpdate = false := by
  decide

/-- C7, as the code has it. For an accepted edit context whose snippet is
non-empty and compiles without compile errors, and whose original timestamp is
not in the cache, one pass of `buildResponses` makes no Slack call, neither an
update nor a post, and leaves the cache as it is. -/
theorem buildResponses_edit_uncached (d : Deps) (gpClient : GoPlaygroundClient) (cache : Cache)
    (mc : MessageContext) (r : GoPlaygroundResult)
    (hinfo : ∃ s, GetInfo d mc = .ok s)
    (hed : mc.MsgEdited = true)
    (hcode : ExtractCode d.unescapeEntities mc mc.ReplyToID ≠ "")
    (hcomp : Compile d gpClient (ExtractCode d.unescapeEntities mc mc.ReplyToID) = .ok r)
    (herr : r.CompileErrors = "")
    (hc : cache.Contains mc.MsgTimestamp = false) :
    (buildResponses d gpClient cache mc).calls = [] ∧
    (buildResponses d gpClient cache mc).settled = cache := by
  obtain ⟨s, hs⟩ := hinfo
  unfold buildResponses
  simp only [hs, hcode, if_false, hcomp, herr, ne_eq, not_true_eq_false, hed, if_true, hc,
    Bool.false_eq_true, BuildStep.settled, List.foldl_nil, and_self]

/-- The pass of C7 on the edit of a message whose reply is not cached. -/
theorem buildResponses_edit_uncached_witness :
    (buildResponses demoDeps demoClient emptyCache (demoCtx "<@UBOT>: `2+2`" true)).calls = [] ∧
    (buildResponses demoDeps demoClient emptyCache (demoCtx "<@UBOT>: `2+2`" true)).settled
      = emptyCache :=
  buildResponses_edit_uncached demoDeps demoClient emptyCache (demoCtx "<@UBOT>: `2+2`" true)
    { CompileErrors := "", Output := "2" } ⟨"info", rfl⟩ rfl (by decide) (by rfl) rfl (by decide)

/-- C7 fails as stated: the edit of a message without a snippet, whose original
timestamp is not in the cache, is answered by a post call. -/
theorem edit_uncached_without_snippet_posts :
    (demoCtx "<@UBOT>: hi" true).MsgEdited = true ∧
    emptyCache.Contains (demoCtx "<@UBOT>: hi" true).MsgTimestamp = false ∧
    (buildResponses demoDeps demoClient emptyCache (demoCtx "<@UBOT>: hi" true)).calls =
      [ApiCall.postMessage "C1" noCodeReply { Username := "slacko", AsUser := true }] ∧
    (buildResponses demoDeps demoClient emptyCache (demoCtx "<@UBOT>: hi" true)).calls.any
      ApiCall.isPost = true := by
  decide

/-- What `postReply` does when the post succeeds with timestamp `ts`: one post
call, and the started insertion puts `ts` under the original timestamp. -/
theorem postReply_ok (d : Deps) (cache : Cache) (mc : MessageContext) (text ch ts : String)
    (params : PostMessageParameters) (hsize : 0 < cache.size)
    (hpost : d.postMessage mc.MsgChannel text params = .ok (ch, ts)) :
    (postReply d cache mc text params).calls = [ApiCall.postMessage mc.MsgChannel text params] ∧
    (postReply d cache mc text params).settled.Contains mc.MsgTimestamp = true ∧
    ((postReply d cache mc text params).settled.Get mc.MsgTimestamp).1 = some ts := by
  unfold postReply
  simp only [hpost, BuildStep.settled, List.foldl_cons, List.foldl_nil, true_and]
  exact Cache.get_add cache mc.MsgTimestamp ts hsize

/-- C8. For an accepted context that is not an edit, whose snippet is non-empty
and compiles without compile errors to the output `o`, and whose post succeeds
with the reply timestamp `ts`: one pass of `buildResponses` makes exactly one
Slack call, a post to the channel of the context with the body `o` between two
triple-backtick fences (`GetOutput`), so no update call; and once the started
insertion has run, the cache (of positive capacity) holds `ts` under the original
timestamp. -/
theorem buildResponses_post_and_cache (d : Deps) (gpClient : GoPlaygroundClient)
    (cache : Cache) (mc : MessageContext) (r : GoPlaygroundResult) (o ch ts : String)
    (hinfo : ∃ s, GetInfo d mc = .ok s)
    (hed : mc.MsgEdited = false)
    (hcode : ExtractCode d.unescapeEntities mc mc.ReplyToID ≠ "")
    (hcomp : Compile d gpClient (ExtractCode d.unescapeEntities mc mc.ReplyToID) = .ok r)
    (herr : r.CompileErrors = "")
    (hout : r.Output = o)
    (hsize : 0 < cache.size)
    (hpost : d.postMessage mc.MsgChannel r.GetOutput { Username := mc.BotName, AsUser := true }
      = .ok (ch, ts)) :
    r.GetOutput = "```" ++ o ++ "```" ∧
    (buildResponses d gpClient cache mc).calls =
      [ApiCall.postMessage mc.MsgChannel ("```" ++ o ++ "```")
        { Username := mc.BotName, AsUser := true }] ∧
    (∀ c ∈ (buildResponses d gpClient cache mc).calls, c.isUpdate = false) ∧
    (buildResponses d gpClient cache mc).settled.Contains mc.MsgTimestamp = true ∧
    ((buildResponses d gpClient cache mc).settled.Get mc.MsgTimestamp).1 = some ts := by
  obtain ⟨s, hs⟩ := hinfo
  have hgo : r.GetOutput = "```" ++ o ++ "```" := by rw [← hout]; rfl
  have hb : buildResponses d gpClient cache mc =
      postReply d cache mc r.GetOutput { Username := mc.BotName, AsUser := true } := by
    unfold buildResponses
    simp only [hs, hcode, if_false, hcomp, herr, ne_eq, not_true_eq_false, hed,
      Bool.false_eq_true]
  obtain ⟨h1, h2, h3⟩ := postReply_ok d cache mc r.GetOutput ch ts _ hsize hpost
  rw [hb]
  refine ⟨hgo, ?_, ?_, h2, h3⟩
  · rw [h1, hgo]
  · intro c hcmem
    rw [h1] at hcmem
    rw [List.mem_singleton.mp hcmem]
    rfl

/-- The pass of C8 on the message of scenario A: the reply is posted and its
timestamp `200.0` is cached under `100.0`. -/
theorem buildResponses_post_and_cache_witness :
    (buildResponses demoDeps demoClient emptyCache (demoCtx "<@UBOT>: `1+1`" false)).calls =
      [ApiCall.postMessage "C1" ("```" ++ "2" ++ "```") { Username := "slacko", AsUser := true }] ∧
    ((buildResponses demoDeps demoClient emptyCache
      (demoCtx "<@UBOT>: `1+1`" false)).settled.Get "100.0").1 = some "200.0" :=
  have h := buildResponses_post_and_cache demoDeps demoClient emptyCache
    (demoCtx "<@UBOT>: `1+1`" false) { CompileErrors := "", Output := "2" } "2" "C1" "200.0"
    ⟨"info", rfl⟩ rfl (by decide) (by rfl) rfl rfl (by decide) rfl
  ⟨h.2.1, h.2.2.2.2⟩

/-- C9, as the code has it. For an accepted context, edit or not, whose snippet
compiles to a result with the non-empty compile errors `dg`: one pass of
`buildResponses` makes exactly one Slack call, a post whose body is
`Compile errors from Go Playground: ` followed by `dg`; when that post succeeds
with the timestamp `ts`, the started insertion puts `ts` in the cache (of
positive capacity) under the original timestamp; when it fails nothing is
inserted. -/
theorem buildResponses_compile_errors (d : Deps) (gpClient : GoPlaygroundClient)
    (cache : Cache) (mc : MessageContext) (r : GoPlaygroundResult) (dg : String)
    (hinfo : ∃ s, GetInfo d mc = .ok s)
    (hcode : ExtractCode d.unescapeEntities mc mc.ReplyToID ≠ "")
    (hcomp : Compile d gpClient (ExtractCode d.unescapeEntities mc mc.ReplyToID) = .ok r)
    (herr : r.CompileErrors = dg)
    (hdg : dg ≠ "") :
    (buildResponses d gpClient cache mc).calls =
      [ApiCall.postMessage mc.MsgChannel ("Compile errors from Go Playground: " ++ dg)
        { Username := mc.BotName, AsUser := true }] ∧
    (∀ ch ts, 0 < cache.size →
      d.postMessage mc.MsgChannel ("Compile errors from Go Playground: " ++ dg)
        { Username := mc.BotName, AsUser := true } = .ok (ch, ts) →
      (buildResponses d gpClient cache mc).settled.Contains mc.MsgTimestamp = true ∧
      ((buildResponses d gpClient cache mc).settled.Get mc.MsgTimestamp).1 = some ts) ∧
    (∀ e, d.postMessage mc.MsgChannel ("Compile errors from Go Playground: " ++ dg)
        { Username := mc.BotName, AsUser := true } = .error e →
      (buildResponses d gpClient cache mc).settled = cache) := by
  obtain ⟨s, hs⟩ := hinfo
  subst herr
  have hb : buildResponses d gpClient cache mc =
      postReply d cache mc ("Compile errors from Go Playground: " ++ r.CompileErrors)
        { Username := mc.BotName, AsUser := true } := by
    unfold buildResponses
    simp only [hs, hcode, if_false, hcomp, ne_eq, hdg, not_false_eq_true, if_true]
  rw [hb]
  refine ⟨?_, ?_, ?_⟩
  · unfold postReply
    split <;> rfl
  · intro ch ts hsize hpost
    exact (postReply_ok d cache mc _ ch ts _ hsize hpost).2
  · intro e hpost
    unfold postReply
    simp only [hpost, BuildStep.settled, List.foldl_nil]

/-- The pass of C9 on a snippet the playground rejects. -/
theorem buildResponses_compile_errors_witness :
    (buildResponses demoDeps demoClient emptyCache (demoCtx "<@UBOT>: `oops?`" false)).calls =
      [ApiCall.postMessage "C1" ("Compile errors from Go Playground: " ++ "undefined: oops")
        { Username := "slacko", AsUser := true }] :=
  (buildResponses_compile_errors demoDeps demoClient emptyCache
    (demoCtx "<@UBOT>: `oops?`" false) { CompileErrors := "undefined: oops", Output := "" }
    "undefined: oops" ⟨"info", rfl⟩ (by decide) (by rfl) rfl (by decide)).1

/-- C9 fails as stated: the playground reports the compile errors
`undefined: oops`, and the body of the reply is not that text but the text
after the words `Compile errors from Go Playground: `. -/
theorem compile_errors_reply_not_verbatim :
    Compile demoDeps demoClient
      (ExtractCode demoDeps.unescapeEntities (demoCtx "<@UBOT>: `oops?`" false) "UBOT")
      = .ok { CompileErrors := "undefined: oops", Output := "" } ∧
    (buildResponses demoDeps demoClient emptyCache (demoCtx "<@UBOT>: `oops?`" false)).calls =
      [ApiCall.postMessage "C1" "Compile errors from Go Playground: undefined: oops"
        { Username := "slacko", AsUser := true }] ∧
    (buildResponses demoDeps demoClient emptyCache (demoCtx "<@UBOT>: `oops?`" false)).calls ≠
      [ApiCall.postMessage "C1" "undefined: oops" { Username := "slacko", AsUser := true }] := by
  refine ⟨by rfl, by decide, by decide⟩

/-! ## Addressing resolution -/

theorem matchGroupRest_cons (c : Char) (cs : List Char) :
    matchGroupRest (c :: cs) =
      match (if c = '/' then none else matchGroupRest cs) with
      | some g => some (c :: g)
      | none => if [ '>', ':' ].isPrefixOf (c :: cs) then some [] else none := by
  rw [matchGroupRest]

/-- A match of `[^/]*>:` splits the input into the group, the literal `>:` and
the remainder, and the group has no slash. -/
theorem matchGroupRest_some (cs g : List Char) (h : matchGroupRest cs = some g) :
    (∃ rest, cs = g ++ '>' :: ':' :: rest) ∧ '/' ∉ g := by
  induction cs generalizing g with
  | nil => simp [matchGroupRest] at h
  | cons c cs ih =>
    unfold matchGroupRest at h
    by_cases hc : c = '/'
    · subst hc
      simp at h
    · simp only [hc, if_false] at h
      cases hm : matchGroupRest cs with
      | some g1 =>
        rw [hm] at h
        simp only [Option.some.injEq] at h
        subst h
        obtain ⟨⟨rest, hr⟩, hs⟩ := ih g1 hm
        refine ⟨⟨rest, by rw [hr]; rfl⟩, ?_⟩
        simp only [List.mem_cons, not_or]
        exact ⟨fun e => hc e.symm, hs⟩
      | none =>
        rw [hm] at h
        simp only at h
        split at h
        · rename_i hp
          simp only [Option.some.injEq] at h
          subst h
          obtain ⟨t, ht⟩ := List.isPrefixOf_iff_prefix.mp hp
          exact ⟨⟨t, by rw [← ht]; rfl⟩, by simp⟩
        · exact absurd h (by simp)

/-- A match of the whole pattern: the text is `<@`, the non-empty group without
a slash, `>:` and a remainder. -/
theorem findSubmatch_some (text g : List Char) (h : findSubmatch text = some g) :
    g ≠ [] ∧ '/' ∉ g ∧ ∃ rest, text = '<' :: '@' :: (g ++ '>' :: ':' :: rest) := by
  unfold findSubmatch at h
  split at h
  · rename_i c cs
    by_cases hc : c = '/'
    · simp [hc] at h
    · simp only [hc, if_false, Option.map_eq_some'] at h
      obtain ⟨g1, hg1, rfl⟩ := h
      obtain ⟨⟨rest, hr⟩, hs⟩ := matchGroupRest_some cs g1 hg1
      refine ⟨by simp, ?_, ⟨rest, by rw [hr]; rfl⟩⟩
      simp only [List.mem_cons, not_or]
      exact ⟨fun e => hc e.symm, hs⟩
  · exact absurd h (by simp)

/-- C3. A text that is not of the form `<@` id `>:` rest with a non-empty id has
no addressee: `ExtractReplyToID` returns the empty string. This covers the texts
whose mentions all come after the first character. -/
theorem ExtractReplyToID_unaddressed (mc : MessageContext)
    (h : ¬ ∃ id rest : String, id ≠ "" ∧ mc.MsgText = "<@" ++ id ++ ">:" ++ rest) :
    ExtractReplyToID mc = "" := by
  unfold ExtractReplyToID
  cases hf : findSubmatch mc.MsgText.data with
  | none => rfl
  | some g =>
    exfalso
    obtain ⟨hne, -, rest, hr⟩ := findSubmatch_some _ g hf
    refine h ⟨⟨g⟩, ⟨rest⟩, ?_, ?_⟩
    · intro e
      exact hne (congrArg String.data e)
    · apply String.ext
      rw [hr]
      simp only [String.data_append, List.append_assoc]
      rfl

/-- C3 on a text without a mention and on one whose mention is not at the
start. -/
theorem ExtractReplyToID_unaddressed_witness :
    ExtractReplyToID (rawCtx "hello there" false) = "" ∧
    ExtractReplyToID (rawCtx "hi <@UBOT>: 1+1" false) = "" := by
  have hd : ∀ (t : String) (c : Char), t.data.head? = some c → c ≠ '<' →
      ¬ ∃ id rest : String, id ≠ "" ∧ t = "<@" ++ id ++ ">:" ++ rest := by
    rintro t c ht hc ⟨id, rest, -, e⟩
    rw [e] at ht
    simp only [String.data_append, List.append_assoc] at ht
    simp only [List.cons_append, List.head?_cons, Option.some.injEq] at ht
    exact hc ht.symm
  exact ⟨ExtractReplyToID_unaddressed (rawCtx "hello there" false) (hd _ 'h' rfl (by decide)),
    ExtractReplyToID_unaddressed (rawCtx "hi <@UBOT>: 1+1" false) (hd _ 'h' rfl (by decide))⟩

/-- C4 at the text `<@U1>: see <@U2>: x`: the group `[^/]+` is greedy, so the
match runs to the last `>:` that no slash precedes, and the result is not the
addressee `U1` of the leading mention. -/
theorem ExtractReplyToID_greedy :
    ExtractReplyToID (rawCtx ("<@" ++ "U1" ++ ">:" ++ " see <@U2>: x") false) = "U1>: see <@U2" ∧
    ExtractReplyToID (rawCtx ("<@" ++ "U1" ++ ">:" ++ " see <@U2>: x") false) ≠ "U1" := by
  decide

/-- Where the result is the addressee of the leading mention: the id is
non-empty and has no slash, and the text after the mention has no further `>:`
that no slash precedes. -/
theorem ExtractReplyToID_leading (mc : MessageContext) (id rest : String)
    (hne : id ≠ "") (hslash : '/' ∉ id.data)
    (hrest : ¬ ∃ r1 r2 : List Char, rest.data = r1 ++ '>' :: ':' :: r2 ∧ '/' ∉ r1)
    (htext : mc.MsgText = "<@" ++ id ++ ">:" ++ rest) :
    ExtractReplyToID mc = id := by
  have hcolon : matchGroupRest (':' :: rest.data) = none := by
    cases hm : matchGroupRest (':' :: rest.data) with
    | none => rfl
    | some g1 =>
      exfalso
      obtain ⟨⟨t, ht⟩, hs⟩ := matchGroupRest_some _ g1 hm
      cases g1 with
      | nil => simp at ht
      | cons a g2 =>
        simp only [List.cons_append, List.cons.injEq] at ht
        simp only [List.mem_cons, not_or] at hs
        exact hrest ⟨g2, t, ht.2, hs.2⟩
  have hrun : ∀ g : List Char, '/' ∉ g →
      matchGroupRest (g ++ '>' :: ':' :: rest.data) = some g := by
    intro g
    induction g with
    | nil =>
      intro _
      rw [List.nil_append, matchGroupRest_cons, if_neg (by decide), hcolon]
      simp [List.isPrefixOf]
    | cons a g ih =>
      intro hs
      simp only [List.mem_cons, not_or] at hs
      have ha : ¬ a = '/' := fun e => hs.1 e.symm
      rw [List.cons_append, matchGroupRest_cons, if_neg ha, ih hs.2]
  have hdata : mc.MsgText.data = '<' :: '@' :: (id.data ++ '>' :: ':' :: rest.data) := by
    rw [htext]
    simp only [String.data_append, List.append_assoc]
    rfl
  unfold ExtractReplyToID
  rw [hdata]
  cases hid : id.data with
  | nil => exact absurd (String.ext hid) hne
  | cons c g =>
    rw [hid] at hslash
    simp only [List.mem_cons, not_or] at hslash
    have hc : ¬ c = '/' := fun e => hslash.1 e.symm
    simp only [List.cons_append, findSubmatch, hc, if_false, hrun g hslash.2, Option.map_some']
    exact String.ext hid.symm

/-! ## Snippet extraction -/

/-- C1 at the text `<@UBOT>: `1+1`:` and the id `UBOT`: without the leading
`<@UBOT>:` and the surrounding white space the text does not end with a backtick,
yet `ExtractCode` returns the snippet `1+1`, because `strings.Trim` also removes
the trailing colon, a character of its cutset. -/
theorem ExtractCode_trims_trailing_cutset (unescapeEntities : String → String) :
    HasSuffix (TrimSpace (TrimPrefix "<@UBOT>: `1+1`:" ("<@" ++ "UBOT" ++ ">:"))) "`" = false ∧
    ExtractCode unescapeEntities (rawCtx "<@UBOT>: `1+1`:" false) "UBOT" = "1+1" := by
  refine ⟨by decide, by rfl⟩

/-- C2 fails as stated: for the id consisting of one backtick, empty white
space, the fence of one backtick and the body `x`, the backtick is in the cutset
of `strings.Trim`, the fences are removed with the mention and `ExtractCode`
returns the empty string, not the decoded body `x`. -/
theorem ExtractCode_backtick_id :
    ExtractCode demoDeps.unescapeEntities
      (rawCtx ("<@" ++ "`" ++ ">:" ++ "" ++ "`" ++ "x" ++ "`") false) "`" = "" ∧
    UnescapeString demoDeps.unescapeEntities "x" = "x" ∧
    ExtractCode demoDeps.unescapeEntities
      (rawCtx ("<@" ++ "`" ++ ">:" ++ "" ++ "`" ++ "x" ++ "`") false) "`" ≠
      UnescapeString demoDeps.unescapeEntities "x" := by
  decide

/-! ### Fenced snippets and ids without a backtick -/

theorem dropWhile_append_stop (p : Char → Bool) (l r : List Char) (a : Char)
    (ha : p a = false) : (l ++ a :: r).dropWhile p = l.dropWhile p ++ a :: r := by
  induction l with
  | nil => simp [ha]
  | cons x l ih =>
    by_cases hx : p x = true
    · simp [hx, ih]
    · simp [hx]

theorem rdropWhile_append_of_pos (p : Char → Bool) (l1 l2 : List Char)
    (h : ∀ c ∈ l2, p c = true) : (l1 ++ l2).rdropWhile p = l1.rdropWhile p := by
  unfold List.rdropWhile
  rw [List.reverse_append, List.dropWhile_append_of_pos]
  intro a ha
  exact h a (List.mem_reverse.mp ha)

/-- Trimming a text that has, between a stop character at each end, anything at
all: only the part before the first stop character is affected. -/
theorem trimFunc_between (p : Char → Bool) (l m : List Char) (a b : Char)
    (ha : p a = false) (hb : p b = false) :
    trimFunc p (l ++ a :: (m ++ [b])) = l.dropWhile p ++ a :: (m ++ [b]) := by
  unfold trimFunc
  rw [dropWhile_append_stop p l _ a ha]
  have e : l.dropWhile p ++ a :: (m ++ [b]) = (l.dropWhile p ++ a :: m) ++ [b] := by simp
  rw [e, List.rdropWhile_concat_neg _ _ _ (by simp [hb])]

/-- Trimming the fences off a body that neither starts nor ends with a fence
character. -/
theorem trimFunc_fences (p : Char → Bool) (F1 F2 body : List Char)
    (h1 : ∀ c ∈ F1, p c = true) (h2 : ∀ c ∈ F2, p c = true)
    (hhead : ∀ c, body.head? = some c → p c = false)
    (hlast : ∀ c, body.getLast? = some c → p c = false) :
    trimFunc p (F1 ++ body ++ F2) = body := by
  unfold trimFunc
  rw [List.append_assoc, List.dropWhile_append_of_pos h1]
  cases body with
  | nil =>
    have : List.dropWhile p ([] ++ F2) = [] := by
      rw [List.nil_append]
      exact List.dropWhile_eq_nil_iff.mpr h2
    rw [this]
    rfl
  | cons x xs =>
    have hx : p x = false := hhead x rfl
    rw [List.cons_append, List.dropWhile_cons_of_neg (by simp [hx]), ← List.cons_append,
      rdropWhile_append_of_pos p _ _ h2]
    apply List.rdropWhile_eq_self_iff.mpr
    intro hne
    have := hlast _ (List.getLast?_eq_getLast _ hne)
    simp [this]

/-- The two trimming steps of `ExtractCode` on a mention, white space and a
fenced body, for a cutset that holds the mention and not the backtick. -/
theorem trim_mention_space (cut : Char → Bool) (pre ws F body : List Char)
    (hpre : ∀ c ∈ pre, cut c = true) (hcut : cut backtick = false)
    (hws : ∀ c ∈ ws, isSpace c = true) :
    trimFunc isSpace (trimFunc cut (pre ++ ws ++ backtick :: (F ++ body ++ (F ++ [backtick]))))
      = backtick :: (F ++ body ++ (F ++ [backtick])) := by
  have e : F ++ body ++ (F ++ [backtick]) = (F ++ body ++ F) ++ [backtick] := by simp
  rw [e, trimFunc_between cut _ _ _ _ hcut hcut, List.dropWhile_append_of_pos hpre,
    trimFunc_between isSpace _ _ _ _ (by decide) (by decide)]
  have hnil : List.dropWhile isSpace (List.dropWhile cut ws) = [] := by
    apply List.dropWhile_eq_nil_iff.mpr
    intro c hc
    exact hws c ((List.dropWhile_suffix cut).subset hc)
  rw [hnil]
  rfl

/-- C2, as the code has it. For an id without a backtick, any run of white
space (possibly empty), a fence of one or three
backticks and a body that neither starts nor ends with a backtick,
`ExtractCode` on the mention, the white space and the fenced body returns the
body with its HTML entities decoded. -/
theorem ExtractCode_fenced (unescapeEntities : String → String) (mc : MessageContext)
    (id ws f body : String)
    (hid : backtick ∉ id.data)
    (hws : ∀ c ∈ ws.data, isSpace c = true)
    (hf : f = "`" ∨ f = "```")
    (hhead : body.data.head? ≠ some backtick)
    (hlast : body.data.getLast? ≠ some backtick)
    (htext : mc.MsgText = "<@" ++ id ++ ">:" ++ ws ++ f ++ body ++ f) :
    ExtractCode unescapeEntities mc id = UnescapeString unescapeEntities body := by
  obtain ⟨F, hF, hfd1, hfd2⟩ : ∃ F : List Char, (∀ c ∈ F, c = backtick) ∧
      f.data = backtick :: F ∧ f.data = F ++ [backtick] := by
    rcases hf with rfl | rfl
    · exact ⟨[], by simp, rfl, rfl⟩
    · exact ⟨[backtick, backtick], by simp, rfl, rfl⟩
  have hdata : mc.MsgText.data =
      ("<@" ++ id ++ ">:").data ++ ws.data ++ backtick :: (F ++ body.data ++ (F ++ [backtick])) := by
    have e : f.data ++ (body.data ++ f.data) =
        backtick :: (F ++ (body.data ++ (F ++ [backtick]))) := by
      nth_rewrite 1 [hfd1]
      rw [hfd2]
      simp
    rw [htext]
    simp only [String.data_append, List.append_assoc]
    rw [e]
  have hcut : (fun c => ("<@" ++ id ++ ">:").data.contains c) backtick = false := by
    simp only [String.data_append, List.contains_eq_any_beq, List.any_append, Bool.or_eq_false_iff,
      List.any_eq_false, beq_iff_eq]
    refine ⟨⟨by decide, ?_⟩, by decide⟩
    intro x hx e
    exact hid (e ▸ hx)
  have htemp : TrimSpace (Trim mc.MsgText ("<@" ++ id ++ ">:")) =
      ⟨backtick :: (F ++ body.data ++ (F ++ [backtick]))⟩ := by
    unfold TrimSpace Trim
    simp only
    rw [hdata, trim_mention_space _ _ _ _ _ (fun c hc => List.elem_eq_true_of_mem hc) hcut hws]
  have hpre : HasPrefix ⟨backtick :: (F ++ body.data ++ (F ++ [backtick]))⟩ "`" = true := by
    simp [HasPrefix, List.isPrefixOf]
  have hsuf : HasSuffix ⟨backtick :: (F ++ body.data ++ (F ++ [backtick]))⟩ "`" = true := by
    unfold HasSuffix
    apply List.isSuffixOf_iff_suffix.mpr
    exact ⟨backtick :: (F ++ body.data ++ F), by simp⟩
  have hinner : Trim ⟨backtick :: (F ++ body.data ++ (F ++ [backtick]))⟩ "`" = body := by
    unfold Trim
    apply String.ext
    simp only
    have e : backtick :: (F ++ body.data ++ (F ++ [backtick]))
        = (backtick :: F) ++ body.data ++ (F ++ [backtick]) := by simp
    rw [e]
    apply trimFunc_fences
    · intro c hc
      rcases List.mem_cons.mp hc with rfl | h
      · decide
      · rw [hF c h]; decide
    · intro c hc
      rcases List.mem_append.mp hc with h | h
      · rw [hF c h]; decide
      · rw [List.mem_singleton.mp h]; decide
    · intro c hc
      have hne : c ≠ backtick := fun e => hhead (e ▸ hc)
      simpa using hne
    · intro c hc
      have hne : c ≠ backtick := fun e => hlast (e ▸ hc)
      simpa using hne
  unfold ExtractCode
  simp only [htemp, hpre, hsuf, hinner, Bool.not_true, Bool.or_self, Bool.false_eq_true, if_false]

/-- The text of scenario A with a single fence, with a triple fence and no white
space, and a body holding an entity. -/
theorem ExtractCode_fenced_witness :
    ExtractCode demoDeps.unescapeEntities (rawCtx "<@BOTID>: `1+1`" false) "BOTID"
      = UnescapeString demoDeps.unescapeEntities "1+1" ∧
    UnescapeString demoDeps.unescapeEntities "1+1" = "1+1" ∧
    ExtractCode demoDeps.unescapeEntities (rawCtx "<@BOTID>:```1+1```" false) "BOTID"
      = UnescapeString demoDeps.unescapeEntities "1+1" ∧
    ExtractCode demoDeps.unescapeEntities (rawCtx "<@BOTID>: `a &lt;= b`" false) "BOTID"
      = UnescapeString demoDeps.unescapeEntities "a &lt;= b" :=
  ⟨ExtractCode_fenced demoDeps.unescapeEntities _ "BOTID" " " "`" "1+1" (by decide) (by decide)
      (Or.inl rfl) (by decide) (by decide) rfl,
   rfl,
   ExtractCode_fenced demoDeps.unescapeEntities _ "BOTID" "" "```" "1+1" (by decide) (by decide)
      (Or.inr rfl) (by decide) (by decide) rfl,
   ExtractCode_fenced demoDeps.unescapeEntities _ "BOTID" " " "`" "a &lt;= b" (by decide)
      (by decide) (Or.inl rfl) (by decide) (by decide) rfl⟩

end Slacko
